import Mathlib

/-
Shallow embedding of the zebra label-indexed store (`src/labelstore/labelstore.go`).

Go maps are modelled as association lists over `String` keys; a map that may be
`nil` (after `Wipe`) is wrapped in `Option`.  Reading a `nil` map yields the
zero value, writing to a `nil` map or dereferencing a `nil` pointer is a
runtime panic, modelled by the `faulted` outcome.  The `zebra` package types
(`ResourceMap`, `ResourceList` and their methods), which belong to this
repository but are not under `src/`, are modelled from the spec; each such
definition carries a doc comment saying so.
-/

/-- Association-list lookup, first match wins: the model of Go map read. -/
def lookupA {α : Type} : List (String × α) → String → Option α
  | [], _ => none
  | p :: rest, k => if p.1 = k then some p.2 else lookupA rest k

/-- Association-list write: the model of Go map assignment `m[k] = v`
(replaces the existing entry for `k`, else appends). -/
def insertA {α : Type} : List (String × α) → String → α → List (String × α)
  | [], k, v => [(k, v)]
  | p :: rest, k, v => if p.1 = k then (k, v) :: rest else p :: insertA rest k v

/-- Association-list removal: the model of Go `delete(m, k)`. -/
def eraseA {α : Type} : List (String × α) → String → List (String × α)
  | [], _ => []
  | p :: rest, k => if p.1 = k then rest else p :: eraseA rest k

/-- A resource as consumed by the engine: stable identifier (`GetID`), type
tag (`GetType`), label map (`GetLabels`, keys unique in Go), and the outcome
of its context-scoped self-validation (`Validate`), which is external to the
engine and therefore abstracted to a boolean. -/
structure Resource where
  id : String
  rtype : String
  labels : List (String × String)
  valid : Bool
deriving DecidableEq, Repr

/-- Modelled from the spec: `zebra.ResourceMap` is a two-level container —
type/key string → list of resources sharing that key — used both as the
query-result type and as the per-label-value bucket.  Entries (the
`*ResourceList` values) are only ever created non-nil, so they are modelled
as plain lists. -/
abbrev RMap := List (String × List Resource)

/-- The engine's secondary index: label key → `*zebra.ResourceMap`
(value → bucket). -/
abbrev LabelMap := List (String × RMap)

/-- Modelled from the spec: `ResourceMap.Add(res, key)` ensures a bucket for
`key` exists (creating an empty one if needed) and appends the resource. -/
def RMap.add (m : RMap) (res : Resource) (key : String) : RMap :=
  insertA m key ((lookupA m key).getD [] ++ [res])

/-- Modelled from the spec: `ResourceMap.Delete(res, key)` removes the
resource (matched by identifier) from the bucket at `key`; a bucket left
empty is pruned, so every surviving (key,value) bucket has members, matching
the spec's description of `Load` emitting one entry per bucket that currently
has members. -/
def RMap.del (m : RMap) (res : Resource) (key : String) : RMap :=
  match lookupA m key with
  | none => m
  | some l =>
    if (l.filter (fun r => r.id ≠ res.id)).isEmpty then eraseA m key
    else insertA m key (l.filter (fun r => r.id ≠ res.id))

/-- Modelled from the spec: `zebra.CopyResourceList(dst, src)` copies the
source list's members into a freshly allocated destination list; in the pure
model the exported copy has exactly the source's elements. -/
def CopyResourceList (src : List Resource) : List Resource := src

/-- All resources stored anywhere in a `ResourceMap` (flattening the
buckets); the membership view of a query result. -/
def members (m : RMap) : List Resource :=
  m.foldr (fun p acc => p.2 ++ acc) []

/-- Query operators are a Go `uint8`; the four named constants are 0..3 and
any other numeral is an unrecognized operator. -/
def MatchEqual : Nat := 0

/-- `MatchNotEqual` operator constant. -/
def MatchNotEqual : Nat := 1

/-- `MatchIn` operator constant. -/
def MatchIn : Nat := 2

/-- `MatchNotIn` operator constant. -/
def MatchNotIn : Nat := 3

/-- A label query: operator + key + candidate values. -/
structure Query where
  op : Nat
  key : String
  values : List String
deriving DecidableEq, Repr

/-- The engine state: primary index `uuids` (id → resource) and secondary
index `resources` (label key → value → bucket).  `none` models a `nil` Go
map (the post-`Wipe` state). -/
structure LabelStore where
  uuids : Option (List (String × Resource))
  resources : Option LabelMap
deriving DecidableEq, Repr

/-- Outcome of a mutating engine operation: the returned error (or nil), or
a runtime panic (nil-map write / nil-pointer dereference). -/
inductive Outcome where
  | ok
  | errValidation
  | errCreateExists
  | errUpdateNoExist
  | faulted
deriving DecidableEq, Repr

/-- A mutating operation's outcome together with the engine state it leaves
behind. -/
structure OpResult where
  out : Outcome
  store : LabelStore
deriving DecidableEq, Repr

/-- Outcome of `Query`: a returned map, the literal `nil` result for
malformed queries, or a runtime panic. -/
inductive QueryOutcome where
  | ok (result : RMap)
  | nilMap
  | faulted
deriving DecidableEq, Repr

/-- One iteration of the label loop shared by `create` and `makeLabelMap`:
`if m[label] == nil { m[label] = NewResourceMap(...) }; m[label].Add(res, val)`. -/
def addLabelEntry (m : LabelMap) (res : Resource) (kv : String × String) : LabelMap :=
  insertA m kv.1 (RMap.add ((lookupA m kv.1).getD []) res kv.2)

/-- `makeLabelMap`: seed the secondary index from a snapshot by iterating all
resources and all their labels. -/
def makeLabelMap (snapshot : RMap) : LabelMap :=
  snapshot.foldl (fun m p => p.2.foldl (fun m res => res.labels.foldl (fun m kv => addLabelEntry m res kv) m) m) []

/-- `NewLabelStore`: construct the engine from a snapshot.  The `uuids`
primary index is initialized to a fresh empty map; only the secondary label
index is seeded via `makeLabelMap`. -/
def NewLabelStore (snapshot : RMap) : LabelStore :=
  { uuids := some [], resources := some (makeLabelMap snapshot) }

/-- `Initialize`: the Go body is `return nil`; the state is untouched. -/
def LabelStore.Initialize (ls : LabelStore) : OpResult :=
  ⟨.ok, ls⟩

/-- `Wipe`: set both indices to `nil`. -/
def LabelStore.Wipe (_ls : LabelStore) : OpResult :=
  ⟨.ok, ⟨none, none⟩⟩

/-- `Clear`: reset both indices to fresh empty maps. -/
def LabelStore.Clear (_ls : LabelStore) : OpResult :=
  ⟨.ok, ⟨some [], some []⟩⟩

/-- `find`: look the identifier up in the primary index; reading a `nil` map
yields not-found. -/
def LabelStore.find (ls : LabelStore) (resID : String) : Option Resource :=
  match ls.uuids with
  | none => none
  | some um => lookupA um resID

/-- `create` (write lock held): fail with `ErrCreateExists` when the id is
already present; otherwise write the primary-index entry (a write to a `nil`
map panics) and add the resource to the bucket of each of its labels (the
first bucket allocation likewise panics when the secondary map is `nil`). -/
def LabelStore.createLocked (ls : LabelStore) (res : Resource) : OpResult :=
  if (ls.find res.id).isSome then ⟨.errCreateExists, ls⟩
  else
    match ls.uuids with
    | none => ⟨.faulted, ls⟩
    | some um =>
      match ls.resources with
      | none =>
        if res.labels.isEmpty then ⟨.ok, ⟨some (insertA um res.id res), none⟩⟩
        else ⟨.faulted, ⟨some (insertA um res.id res), none⟩⟩
      | some rm =>
        ⟨.ok, ⟨some (insertA um res.id res), some (res.labels.foldl (fun m kv => addLabelEntry m res kv) rm)⟩⟩

/-- `Create`: validate the resource, then `create` under the write lock. -/
def LabelStore.Create (ls : LabelStore) (res : Resource) : OpResult :=
  if res.valid = false then ⟨.errValidation, ls⟩
  else ls.createLocked res

/-- One iteration of `delete`'s label loop:
`if ls.resources[label] != nil { ls.resources[label].Delete(res, val) }`. -/
def delStep (res : Resource) (m : LabelMap) (kv : String × String) : LabelMap :=
  match lookupA m kv.1 with
  | none => m
  | some vm => insertA m kv.1 (RMap.del vm res kv.2)

/-- `delete` (write lock held): if the id is absent, return success without
mutating; otherwise remove the resource from the bucket of each of the
ARGUMENT's labels (guarding each bucket against `nil`).  The primary-index
entry is not touched. -/
def LabelStore.deleteLocked (ls : LabelStore) (res : Resource) : OpResult :=
  if (ls.find res.id).isNone then ⟨.ok, ls⟩
  else
    match ls.resources with
    | none => ⟨.ok, ls⟩
    | some rm =>
      ⟨.ok, ⟨ls.uuids, some (res.labels.foldl (delStep res) rm)⟩⟩

/-- `Delete`: validate the resource, then `delete` under the write lock. -/
def LabelStore.Delete (ls : LabelStore) (res : Resource) : OpResult :=
  if res.valid = false then ⟨.errValidation, ls⟩
  else ls.deleteLocked res

/-- `Update`: validate, fail with `ErrUpdateNoExist` when the id is absent,
otherwise `delete` the stored resource then `create` the new one, both
internal error returns discarded (`_ =`); a runtime panic inside the internal
`create` would still propagate. -/
def LabelStore.Update (ls : LabelStore) (res : Resource) : OpResult :=
  if res.valid = false then ⟨.errValidation, ls⟩
  else
    match ls.find res.id with
    | none => ⟨.errUpdateNoExist, ls⟩
    | some oldRes =>
      let d := ls.deleteLocked oldRes
      let c := d.store.createLocked res
      if c.out = .faulted then ⟨.faulted, c.store⟩ else ⟨.ok, c.store⟩

/-- `isIn`: membership of a string in a candidate list. -/
def isIn (val : String) (list : List String) : Bool :=
  list.any (fun v => v = val)

/-- The evaluation of `ls.resources[key]`: reading a `nil` outer map or a
missing key both yield a `nil` `*ResourceMap`. -/
def LabelStore.outerLookup (ls : LabelStore) (key : String) : Option RMap :=
  match ls.resources with
  | none => none
  | some m => lookupA m key

/-- The `inVals` loop of `labelMatch`: for each candidate value, iterate
`ls.resources[key].Resources[val].Resources`, adding every resource keyed by
its type.  Each iteration dereferences the outer `*ResourceMap` and the value
bucket's `*ResourceList`; either being `nil` panics.  An empty candidate list
never dereferences anything. -/
def matchInLoop (bucketOf : Option RMap) (vals : List String) (acc : RMap) : QueryOutcome :=
  match vals with
  | [] => .ok acc
  | v :: rest =>
    match bucketOf with
    | none => .faulted
    | some vm =>
      match lookupA vm v with
      | none => .faulted
      | some l => matchInLoop bucketOf rest (l.foldl (fun a r => RMap.add a r r.rtype) acc)

/-- `labelMatch`: evaluate the positive (`inVals`) or negative candidate
match against the secondary index.  The negative branch ranges over
`ls.resources[key].Resources`, dereferencing the outer `*ResourceMap` once
(panicking when it is `nil`). -/
def LabelStore.labelMatch (ls : LabelStore) (q : Query) (inVals : Bool) : QueryOutcome :=
  if inVals then matchInLoop (ls.outerLookup q.key) q.values []
  else
    match ls.outerLookup q.key with
    | none => .faulted
    | some vm =>
      .ok (vm.foldl (fun acc p =>
        if isIn p.1 q.values then acc
        else p.2.foldl (fun a r => RMap.add a r r.rtype) acc) [])

/-- `Query`: dispatch on the operator; `MatchEqual`/`MatchNotEqual` demand
exactly one candidate value and otherwise return `nil`, as does any
unrecognized operator. -/
def LabelStore.Query (ls : LabelStore) (q : Query) : QueryOutcome :=
  if q.op = MatchEqual then
    if q.values.length ≠ 1 then .nilMap else ls.labelMatch q true
  else if q.op = MatchIn then ls.labelMatch q true
  else if q.op = MatchNotEqual then
    if q.values.length ≠ 1 then .nilMap else ls.labelMatch q false
  else if q.op = MatchNotIn then ls.labelMatch q false
  else .nilMap

/-- The flattened (synthetic-key, copied bucket) pairs `Load` iterates over,
in index order. -/
def loadPairs (m : LabelMap) : List (String × List Resource) :=
  m.flatMap (fun p => p.2.map (fun q => (p.1 ++ " = " ++ q.1, CopyResourceList q.2)))

/-- `Load`: export every (key,value) bucket under the synthetic key
`"<label-key> = <label-value>"`, each bucket copied into a fresh list;
ranging over a `nil` secondary map yields the empty export. -/
def LabelStore.Load (ls : LabelStore) : RMap :=
  match ls.resources with
  | none => []
  | some m => (loadPairs m).foldl (fun ret p => insertA ret p.1 p.2) []

/-- Lookup of a single secondary-index bucket: label key then label value. -/
def bucketLookup (ls : LabelStore) (k v : String) : Option (List Resource) :=
  match ls.resources with
  | none => none
  | some m =>
    match lookupA m k with
    | none => none
    | some vm => lookupA vm v

/-- The state `Clear` produces: both indices fresh and empty (the Ready
state). -/
def emptyStore : LabelStore := ⟨some [], some []⟩

/-- A concrete valid resource: identifier `a`, one label `rack = 7`. -/
def aRes : Resource := ⟨"a", "server", [("rack", "7")], true⟩

/-- The engine after `Create(aRes)` on the empty store. -/
def stA : LabelStore := (emptyStore.Create aRes).store

/-- A second concrete resource with the same identifier as `aRes` but a
different label set, used as the `Update` replacement. -/
def a2Res : Resource := ⟨"a", "server", [("rack", "8")], true⟩

/-- A concrete valid resource with a fresh identifier. -/
def bRes : Resource := ⟨"b", "switch", [("row", "2")], true⟩

/-- C1: `Delete` on a stored resource reports success and removes the
resource from its secondary-index bucket, but the identifier is never
removed from the primary index (`uuids`): `find` still succeeds afterwards,
so an index entry for the identifier remains, contrary to the claim. -/
theorem delete_leaves_primary_index_entry :
    (stA.Delete aRes).out = .ok ∧
    (stA.Delete aRes).store.find "a" = some aRes ∧
    bucketLookup (stA.Delete aRes).store "rack" "7" = none := by
  refine ⟨by decide, by decide, by decide⟩

/-- C2: after `Update(a2Res)` replacing `aRes` (same id, label `rack = 8`
instead of `rack = 7`), the update reports success, yet the primary index
still holds the OLD resource, the bucket for the new label `rack = 8` does
not exist, and a `MatchNotIn "rack" []` query (which returns every resource
under key `rack`) is empty — so no query over the new resource's labels
includes it, contrary to the claim.  The internal `create` step fails with
`ErrCreateExists` (the id was never freed by `delete`) and the error is
discarded. -/
theorem update_loses_new_resource :
    (stA.Update a2Res).out = .ok ∧
    (stA.Update a2Res).store.find "a" = some aRes ∧
    bucketLookup (stA.Update a2Res).store "rack" "8" = none ∧
    (stA.Update a2Res).store.Query ⟨MatchNotIn, "rack", []⟩ = .ok [] := by
  refine ⟨by decide, by decide, by decide, by decide⟩

/-- C3: `Query(MatchIn, "nonexistent-key", ["x"])` dereferences the `nil`
`*ResourceMap` returned for the never-indexed key and faults, and
`Query(MatchIn, "rack", ["9"])` on a store where key `rack` is indexed but
value `9` has no bucket dereferences the `nil` `*ResourceList` and likewise
faults — the code does not degrade to an empty result as the claim states. -/
theorem query_unknown_key_faults :
    emptyStore.Query ⟨MatchIn, "nonexistent-key", ["x"]⟩ = .faulted ∧
    stA.Query ⟨MatchIn, "rack", ["9"]⟩ = .faulted := by
  refine ⟨by decide, by decide⟩

/-- The one-resource snapshot used to exercise `NewLabelStore`. -/
def snapRes : Resource := ⟨"s1", "server", [("rack", "7")], true⟩

/-- A fully-populated snapshot `ResourceMap` holding `snapRes`. -/
def snapshot1 : RMap := [("server", [snapRes])]

/-- C4: constructing the engine from a snapshot seeds the secondary label
index (the resource is in its `rack = 7` bucket) but initializes the primary
index to a fresh EMPTY map, so the snapshot resource is not findable by its
identifier, contrary to the claim that both indices are seeded. -/
theorem newLabelStore_primary_index_empty :
    (NewLabelStore snapshot1).find "s1" = none ∧
    bucketLookup (NewLabelStore snapshot1) "rack" "7" = some [snapRes] := by
  refine ⟨by decide, by decide⟩

/-- C5 counterexample: `Initialize` is `return nil` and does not restore a
wiped engine; after `Wipe` followed by `Initialize`, `Create` on a valid
resource with a fresh identifier writes to the `nil` primary-index map and
faults instead of succeeding, so the claim fails as stated. -/
theorem initialize_after_wipe_create_faults :
    ((((emptyStore.Wipe).store.Initialize).store.Create) bRes).out = .faulted ∧
    ((emptyStore.Wipe).store.Initialize).store = (emptyStore.Wipe).store := by
  refine ⟨by decide, by decide⟩

theorem lookupA_insertA_self {α : Type} (m : List (String × α)) (k : String) (v : α) :
    lookupA (insertA m k v) k = some v := by
  induction m with
  | nil => simp [insertA, lookupA]
  | cons p rest ih =>
    by_cases h : p.1 = k
    · simp [insertA, h, lookupA]
    · simp [insertA, h, lookupA, ih]

theorem lookupA_insertA_ne {α : Type} (m : List (String × α)) (k k2 : String) (v : α)
    (h : k2 ≠ k) : lookupA (insertA m k v) k2 = lookupA m k2 := by
  have h2 : ¬k = k2 := fun hh => h hh.symm
  induction m with
  | nil => simp [insertA, lookupA, h2]
  | cons p rest ih =>
    by_cases hp : p.1 = k
    · simp [insertA, hp, lookupA, h2]
    · simp only [insertA, hp, if_false, lookupA]
      by_cases hpk : p.1 = k2 <;> simp [hpk, ih]

/-- C5 (amended): `Initialize` is a no-op that leaves the engine state
unchanged and reports success; the transition from the Wiped state back to
Ready is `Clear`, after which `Create` succeeds on any valid resource (its
identifier is fresh in the freshly-reset index). -/
theorem initialize_noop_and_wipe_clear_create_ok (ls : LabelStore) (r : Resource)
    (h : r.valid = true) :
    ls.Initialize = ⟨.ok, ls⟩ ∧
    ((((ls.Wipe).store.Clear).store.Create) r).out = .ok := by
  refine ⟨rfl, ?_⟩
  simp [LabelStore.Wipe, LabelStore.Clear, LabelStore.Create, h,
    LabelStore.createLocked, LabelStore.find, lookupA]

theorem initialize_noop_and_wipe_clear_create_ok_witness :
    aRes.valid = true ∧
    (emptyStore.Initialize = ⟨.ok, emptyStore⟩ ∧
     ((((emptyStore.Wipe).store.Clear).store.Create) aRes).out = .ok) :=
  ⟨rfl, initialize_noop_and_wipe_clear_create_ok emptyStore aRes rfl⟩

/-- C6: if a first `Create(r1)` succeeds, a second `Create` of a valid
resource `r2` carrying the same identifier fails with `ErrCreateExists` and
returns the store state completely unchanged (hence identical size,
contents, and query results). -/
theorem create_duplicate_fails_unchanged (ls : LabelStore) (r1 r2 : Resource)
    (h1 : (ls.Create r1).out = .ok) (h2 : r2.valid = true) (h3 : r2.id = r1.id) :
    ((ls.Create r1).store.Create r2) = ⟨.errCreateExists, (ls.Create r1).store⟩ := by
  unfold LabelStore.Create at h1 ⊢
  by_cases hv : r1.valid = false
  · simp [hv] at h1
  · simp only [hv, if_false, h2, Bool.true_eq_false, if_false] at h1 ⊢
    unfold LabelStore.createLocked at h1 ⊢
    by_cases hf : ((ls.find r1.id).isSome : Prop)
    · simp [hf] at h1
    · simp only [hf, if_false] at h1 ⊢
      match hu : ls.uuids with
      | none => simp [hu] at h1
      | some um =>
        simp only [hu] at h1 ⊢
        match hr : ls.resources with
        | none =>
          simp only [hr] at h1 ⊢
          by_cases hl : r1.labels.isEmpty
          · simp only [hl, if_true] at h1 ⊢
            simp [LabelStore.find, h3, lookupA_insertA_self]
          · simp [hl] at h1
        | some rm =>
          simp only [hr] at h1 ⊢
          simp [LabelStore.find, h3, lookupA_insertA_self]

theorem create_duplicate_fails_unchanged_witness :
    ((emptyStore.Create aRes).out = .ok ∧ a2Res.valid = true ∧ a2Res.id = aRes.id) ∧
    ((emptyStore.Create aRes).store.Create a2Res) = ⟨.errCreateExists, (emptyStore.Create aRes).store⟩ :=
  ⟨⟨by decide, by decide, by decide⟩,
   create_duplicate_fails_unchanged emptyStore aRes a2Res (by decide) (by decide) (by decide)⟩

/-- C7: `MatchEqual` or `MatchNotEqual` with a candidate-value list whose
length is not exactly one yields the `nil` result, and so does any
unrecognized operator (any numeral outside 0..3); in both cases `Query`
returns only the `nil` map — it has no error channel, so no distinct error
is raised. -/
theorem query_malformed_yields_nil (ls : LabelStore) (q : Query)
    (h : ((q.op = MatchEqual ∨ q.op = MatchNotEqual) ∧ q.values.length ≠ 1) ∨ 4 ≤ q.op) :
    ls.Query q = .nilMap := by
  unfold LabelStore.Query
  rcases h with ⟨hop, hlen⟩ | hop
  · rcases hop with h0 | h1
    · simp [h0, hlen]
    · simp [h1, MatchEqual, MatchNotEqual, MatchIn, hlen]
  · simp only [MatchEqual, MatchNotEqual, MatchIn, MatchNotIn]
    have e0 : ¬q.op = 0 := by omega
    have e1 : ¬q.op = 1 := by omega
    have e2 : ¬q.op = 2 := by omega
    have e3 : ¬q.op = 3 := by omega
    simp [e0, e1, e2, e3]

theorem query_malformed_yields_nil_witness :
    ((((⟨MatchEqual, "k", []⟩ : Query).op = MatchEqual ∨
       (⟨MatchEqual, "k", []⟩ : Query).op = MatchNotEqual) ∧
      (⟨MatchEqual, "k", []⟩ : Query).values.length ≠ 1) ∨
     4 ≤ (⟨MatchEqual, "k", []⟩ : Query).op) ∧
    emptyStore.Query ⟨MatchEqual, "k", []⟩ = .nilMap :=
  ⟨Or.inl ⟨Or.inl rfl, by decide⟩,
   query_malformed_yields_nil emptyStore ⟨MatchEqual, "k", []⟩ (Or.inl ⟨Or.inl rfl, by decide⟩)⟩

theorem insertA_of_lookup_none {α : Type} (m : List (String × α)) (k : String) (v : α)
    (h : lookupA m k = none) : insertA m k v = m ++ [(k, v)] := by
  induction m with
  | nil => simp [insertA]
  | cons p rest ih =>
    by_cases hp : p.1 = k
    · simp [lookupA, hp] at h
    · simp only [lookupA, hp, if_false] at h
      simp [insertA, hp, ih h]

theorem lookupA_append_of_none {α : Type} (a b : List (String × α)) (k : String)
    (h : lookupA a k = none) : lookupA (a ++ b) k = lookupA b k := by
  induction a with
  | nil => simp
  | cons p rest ih =>
    by_cases hp : p.1 = k
    · simp [lookupA, hp] at h
    · simp only [lookupA, hp, if_false] at h
      simp [lookupA, hp, ih h]

theorem foldl_insertA_nodup {α : Type} (pairs : List (String × α)) :
    ∀ acc : List (String × α), (pairs.map Prod.fst).Nodup →
    (∀ k ∈ pairs.map Prod.fst, lookupA acc k = none) →
    pairs.foldl (fun ret p => insertA ret p.1 p.2) acc = acc ++ pairs := by
  induction pairs with
  | nil => intro acc _ _; simp
  | cons p rest ih =>
    intro acc hnd hnone
    simp only [List.map_cons, List.nodup_cons, List.mem_map] at hnd
    have hp0 : lookupA acc p.1 = none := hnone p.1 (by simp)
    have step : insertA acc p.1 p.2 = acc ++ [p] := by
      rw [insertA_of_lookup_none acc p.1 p.2 hp0]
    have hrest : ∀ k ∈ rest.map Prod.fst, lookupA (acc ++ [p]) k = none := by
      intro k hk
      have hka : lookupA acc k = none := hnone k (by simp [hk])
      rw [lookupA_append_of_none _ _ _ hka]
      have hpk : ¬p.1 = k := by
        intro hc
        rcases List.mem_map.mp hk with ⟨q, hq, hqk⟩
        exact hnd.1 ⟨q, hq, by rw [hqk, hc]⟩
      simp [lookupA, hpk]
    calc (p :: rest).foldl (fun ret q => insertA ret q.1 q.2) acc
        = rest.foldl (fun ret q => insertA ret q.1 q.2) (acc ++ [p]) := by
          simp [List.foldl_cons, step]
      _ = (acc ++ [p]) ++ rest := ih (acc ++ [p]) hnd.2 hrest
      _ = acc ++ p :: rest := by simp

/-- First resource of the `Load` collision scenario: label key `a`, label
value `b = c`. -/
def r1c : Resource := ⟨"1", "t", [("a", "b = c")], true⟩

/-- Second resource of the `Load` collision scenario: label key `a = b`,
label value `c` — a distinct (key,value) pair whose synthetic `Load` key
collides with the first resource's. -/
def r2c : Resource := ⟨"2", "t", [("a = b", "c")], true⟩

/-- The engine after creating both collision-scenario resources. -/
def stC8 : LabelStore := ((emptyStore.Create r1c).store.Create r2c).store

/-- C8 counterexample: the store holds two distinct nonempty (key,value)
buckets, `("a", "b = c")` and `("a = b", "c")`, but both flatten to the same
synthetic string `"a = b = c"`, so `Load` returns a single entry instead of
one entry per nonempty bucket, refuting the claim as stated. -/
theorem load_synthetic_key_collision :
    bucketLookup stC8 "a" "b = c" = some [r1c] ∧
    bucketLookup stC8 "a = b" "c" = some [r2c] ∧
    (stC8.Load).length = 1 := by
  refine ⟨by decide, by decide, by decide⟩

/-- C8 (amended): provided distinct (key,value) buckets map to pairwise
distinct synthetic strings `"key = value"` and every bucket has members,
`Load` returns exactly one entry per bucket, in index order, keyed by the
synthetic string and containing exactly that bucket's resources (exported
through the spec-modelled `CopyResourceList`, so the engine's internal
bucket is not shared with the returned list), and every returned entry is
nonempty. -/
theorem load_exports_buckets (ls : LabelStore) (m : LabelMap)
    (hm : ls.resources = some m)
    (hkeys : ((loadPairs m).map Prod.fst).Nodup)
    (hne : ∀ p ∈ m, ∀ q ∈ p.2, q.2 ≠ []) :
    ls.Load = loadPairs m ∧ ∀ p ∈ ls.Load, p.2 ≠ [] := by
  have hload : ls.Load = loadPairs m := by
    simp only [LabelStore.Load, hm]
    have hbase : ∀ k ∈ (loadPairs m).map Prod.fst, lookupA ([] : RMap) k = none := by
      intro k _; rfl
    simpa using foldl_insertA_nodup (loadPairs m) [] hkeys hbase
  refine ⟨hload, ?_⟩
  rw [hload]
  intro p hp
  unfold loadPairs at hp
  rw [List.mem_flatMap] at hp
  obtain ⟨e, he, hpe⟩ := hp
  rw [List.mem_map] at hpe
  obtain ⟨q, hq, hqe⟩ := hpe
  intro hc
  apply hne e he q hq
  have : p.2 = CopyResourceList q.2 := by rw [← hqe]
  rw [CopyResourceList] at this
  rw [← this]
  exact hc

theorem load_exports_buckets_witness :
    (stA.resources = some [("rack", [("7", [aRes])])] ∧
     ((loadPairs [("rack", [("7", [aRes])])]).map Prod.fst).Nodup ∧
     (∀ p ∈ [("rack", [("7", [aRes])])], ∀ q ∈ p.2, q.2 ≠ ([] : List Resource))) ∧
    (stA.Load = loadPairs [("rack", [("7", [aRes])])] ∧ ∀ p ∈ stA.Load, p.2 ≠ []) :=
  ⟨⟨by decide, by decide, by decide⟩,
   load_exports_buckets stA [("rack", [("7", [aRes])])] (by decide) (by decide) (by decide)⟩

theorem members_nil : members ([] : RMap) = [] := rfl

theorem members_cons (p : String × List Resource) (rest : RMap) :
    members (p :: rest) = p.2 ++ members rest := rfl

theorem mem_members_iff (m : RMap) (x : Resource) :
    x ∈ members m ↔ ∃ p ∈ m, x ∈ p.2 := by
  induction m with
  | nil => simp [members_nil]
  | cons p rest ih => simp [members_cons, ih]

theorem mem_members_add (a : RMap) (r : Resource) (key : String) (x : Resource) :
    x ∈ members (RMap.add a r key) ↔ x = r ∨ x ∈ members a := by
  induction a with
  | nil => simp [RMap.add, insertA, lookupA, members]
  | cons p rest ih =>
    by_cases hp : p.1 = key
    · have h1 : RMap.add (p :: rest) r key = (key, p.2 ++ [r]) :: rest := by
        simp [RMap.add, lookupA, insertA, hp]
      rw [h1, members_cons, members_cons]
      simp only [List.mem_append, List.mem_singleton]
      tauto
    · have h1 : RMap.add (p :: rest) r key = p :: RMap.add rest r key := by
        simp [RMap.add, lookupA, insertA, hp]
      rw [h1, members_cons, members_cons]
      simp only [List.mem_append]
      rw [ih]
      tauto

theorem mem_members_foldl_add (l : List Resource) (x : Resource) :
    ∀ acc : RMap,
    x ∈ members (l.foldl (fun a r => RMap.add a r r.rtype) acc) ↔ x ∈ l ∨ x ∈ members acc := by
  induction l with
  | nil => intro acc; simp
  | cons r rest ih =>
    intro acc
    simp only [List.foldl_cons, ih, mem_members_add, List.mem_cons]
    tauto

theorem lookupA_isSome_of_key_mem {α : Type} (m : List (String × α)) (k : String)
    (h : k ∈ m.map Prod.fst) : (lookupA m k).isSome = true := by
  induction m with
  | nil => simp at h
  | cons p rest ih =>
    by_cases hp : p.1 = k
    · simp [lookupA, hp]
    · simp only [List.map_cons, List.mem_cons] at h
      rcases h with h | h
      · exact absurd h.symm hp
      · simp [lookupA, hp, ih h]

theorem lookupA_mem {α : Type} (m : List (String × α)) (k : String) (v : α)
    (h : lookupA m k = some v) : (k, v) ∈ m := by
  induction m with
  | nil => simp [lookupA] at h
  | cons p rest ih =>
    by_cases hp : p.1 = k
    · simp only [lookupA, hp, if_true, Option.some.injEq] at h
      have hkv : (k, v) = p := by
        rw [← hp, ← h]
      rw [hkv]
      exact List.mem_cons_self p rest
    · simp only [lookupA, hp, if_false] at h
      exact List.mem_cons_of_mem p (ih h)

theorem mem_lookupA_of_nodup {α : Type} (m : List (String × α)) (k : String) (v : α)
    (hnd : (m.map Prod.fst).Nodup) (h : (k, v) ∈ m) : lookupA m k = some v := by
  induction m with
  | nil => simp at h
  | cons p rest ih =>
    simp only [List.map_cons, List.nodup_cons, List.mem_map] at hnd
    rcases List.mem_cons.mp h with h | h
    · rw [← h]
      simp [lookupA]
    · have hpk : ¬p.1 = k := by
        intro hc
        exact hnd.1 ⟨(k, v), h, by rw [hc]⟩
      simp [lookupA, hpk, ih hnd.2 h]

theorem matchInLoop_ok (vm : RMap) :
    ∀ (vals : List String) (acc : RMap),
    (∀ v ∈ vals, (lookupA vm v).isSome = true) →
    ∃ r, matchInLoop (some vm) vals acc = .ok r ∧
      (∀ x, x ∈ members r ↔ (∃ v ∈ vals, x ∈ (lookupA vm v).getD []) ∨ x ∈ members acc) := by
  intro vals
  induction vals with
  | nil =>
    intro acc _
    exact ⟨acc, rfl, by simp⟩
  | cons v rest ih =>
    intro acc hsome
    have hv : (lookupA vm v).isSome = true := hsome v (by simp)
    obtain ⟨l, hl⟩ := Option.isSome_iff_exists.mp hv
    obtain ⟨r, hr, hmem⟩ := ih (l.foldl (fun a r => RMap.add a r r.rtype) acc)
      (fun v2 hv2 => hsome v2 (by simp [hv2]))
    refine ⟨r, ?_, ?_⟩
    · simp only [matchInLoop, hl]
      exact hr
    · intro x
      rw [hmem x, mem_members_foldl_add]
      constructor
      · rintro (⟨v2, hv2, hx⟩ | hx | hacc)
        · exact Or.inl ⟨v2, by simp [hv2], hx⟩
        · exact Or.inl ⟨v, by simp, by simp [hl, hx]⟩
        · exact Or.inr hacc
      · rintro (⟨v2, hv2, hx⟩ | hacc)
        · rcases List.mem_cons.mp hv2 with hveq | hv2r
          · refine Or.inr (Or.inl ?_)
            rw [hveq] at hx
            simpa [hl] using hx
          · exact Or.inl ⟨v2, hv2r, hx⟩
        · exact Or.inr (Or.inr hacc)

theorem isIn_true_iff (v : String) (l : List String) : isIn v l = true ↔ v ∈ l := by
  simp only [isIn, List.any_eq_true, decide_eq_true_eq]
  constructor
  · rintro ⟨w, hw, hwv⟩; rw [← hwv]; exact hw
  · intro h; exact ⟨v, h, rfl⟩

theorem foldl_skip_all (V : List String) :
    ∀ (l : RMap) (acc : RMap), (∀ p ∈ l, isIn p.1 V = true) →
    l.foldl (fun acc p =>
      if isIn p.1 V then acc
      else p.2.foldl (fun a r => RMap.add a r r.rtype) acc) acc = acc := by
  intro l
  induction l with
  | nil => intro acc _; rfl
  | cons p rest ih =>
    intro acc hall
    have hp : isIn p.1 V = true := hall p (by simp)
    simp only [List.foldl_cons, hp, if_true]
    exact ih acc (fun q hq => hall q (by simp [hq]))

/-- C9: for a label key `k` currently indexed with value map `vm` (whose
value set is `vm.map Prod.fst`), `Query(MatchIn, k, V)` returns exactly the
resources stored under key `k` and `Query(MatchNotIn, k, V)` returns the
empty result, so their union is the set of all resources carrying key `k`
(as recorded by the secondary index) and their intersection is empty. -/
theorem matchIn_matchNotIn_complementary (ls : LabelStore) (m : LabelMap) (vm : RMap)
    (k : String) (hm : ls.resources = some m) (hk : lookupA m k = some vm)
    (hnd : (vm.map Prod.fst).Nodup) :
    ∃ rIn rNotIn,
      ls.Query ⟨MatchIn, k, vm.map Prod.fst⟩ = .ok rIn ∧
      ls.Query ⟨MatchNotIn, k, vm.map Prod.fst⟩ = .ok rNotIn ∧
      (∀ x, (x ∈ members rIn ∨ x ∈ members rNotIn) ↔ x ∈ members vm) ∧
      (∀ x, ¬(x ∈ members rIn ∧ x ∈ members rNotIn)) := by
  have houter : ls.outerLookup k = some vm := by
    simp [LabelStore.outerLookup, hm, hk]
  have hsome : ∀ v ∈ vm.map Prod.fst, (lookupA vm v).isSome = true :=
    fun v hv => lookupA_isSome_of_key_mem vm v hv
  obtain ⟨rIn, hrIn, hmemIn⟩ := matchInLoop_ok vm (vm.map Prod.fst) [] hsome
  refine ⟨rIn, [], ?_, ?_, ?_, ?_⟩
  · simp only [LabelStore.Query, MatchEqual, MatchIn, MatchNotEqual, MatchNotIn,
      LabelStore.labelMatch]
    norm_num
    rw [houter]
    exact hrIn
  · have hall : ∀ p ∈ vm, isIn p.1 (vm.map Prod.fst) = true := by
      intro p hp
      rw [isIn_true_iff]
      exact List.mem_map_of_mem Prod.fst hp
    simp only [LabelStore.Query, MatchEqual, MatchIn, MatchNotEqual, MatchNotIn,
      LabelStore.labelMatch, houter]
    norm_num
    rw [foldl_skip_all (vm.map Prod.fst) vm [] hall]
  · intro x
    simp only [members_nil, List.not_mem_nil, or_false]
    rw [hmemIn x]
    simp only [members_nil, List.not_mem_nil, or_false]
    constructor
    · rintro ⟨v, hv, hx⟩
      obtain ⟨l, hl⟩ := Option.isSome_iff_exists.mp (hsome v hv)
      rw [hl] at hx
      simp only [Option.getD_some] at hx
      exact (mem_members_iff vm x).mpr ⟨(v, l), lookupA_mem vm v l hl, hx⟩
    · intro hx
      obtain ⟨p, hp, hxp⟩ := (mem_members_iff vm x).mp hx
      refine ⟨p.1, List.mem_map_of_mem Prod.fst hp, ?_⟩
      rw [mem_lookupA_of_nodup vm p.1 p.2 hnd hp]
      simpa using hxp
  · intro x
    simp [members_nil]

theorem matchIn_matchNotIn_complementary_witness :
    (stA.resources = some [("rack", [("7", [aRes])])] ∧
     lookupA [("rack", [("7", [aRes])])] "rack" = some [("7", [aRes])] ∧
     (([("7", [aRes])] : RMap).map Prod.fst).Nodup) ∧
    (∃ rIn rNotIn,
      stA.Query ⟨MatchIn, "rack", ([("7", [aRes])] : RMap).map Prod.fst⟩ = .ok rIn ∧
      stA.Query ⟨MatchNotIn, "rack", ([("7", [aRes])] : RMap).map Prod.fst⟩ = .ok rNotIn ∧
      (∀ x, (x ∈ members rIn ∨ x ∈ members rNotIn) ↔ x ∈ members [("7", [aRes])]) ∧
      (∀ x, ¬(x ∈ members rIn ∧ x ∈ members rNotIn))) :=
  ⟨⟨by decide, by decide, by decide⟩,
   matchIn_matchNotIn_complementary stA [("rack", [("7", [aRes])])] [("7", [aRes])] "rack"
     (by decide) (by decide) (by decide)⟩

theorem lookupA_eq_none_of_not_mem {α : Type} (m : List (String × α)) (k : String)
    (h : k ∉ m.map Prod.fst) : lookupA m k = none := by
  induction m with
  | nil => rfl
  | cons p rest ih =>
    simp only [List.map_cons, List.mem_cons] at h
    push_neg at h
    have hp : ¬p.1 = k := fun hc => h.1 hc.symm
    simp [lookupA, hp, ih h.2]

theorem eraseA_sublist {α : Type} (m : List (String × α)) (k : String) :
    List.Sublist (eraseA m k) m := by
  induction m with
  | nil => exact List.Sublist.refl []
  | cons p rest ih =>
    by_cases hp : p.1 = k
    · simp only [eraseA, hp, if_true]
      exact List.Sublist.cons p (List.Sublist.refl rest)
    · simp only [eraseA, hp, if_false]
      exact List.Sublist.cons₂ p ih

theorem lookupA_eraseA_self_of_nodup {α : Type} (m : List (String × α)) (k : String)
    (hnd : (m.map Prod.fst).Nodup) : lookupA (eraseA m k) k = none := by
  induction m with
  | nil => rfl
  | cons p rest ih =>
    simp only [List.map_cons, List.nodup_cons, List.mem_map] at hnd
    by_cases hp : p.1 = k
    · simp only [eraseA, hp, if_true]
      apply lookupA_eq_none_of_not_mem
      intro hc
      rcases List.mem_map.mp hc with ⟨q, hq, hqk⟩
      exact hnd.1 ⟨q, hq, by rw [hqk, hp]⟩
    · simp only [eraseA, hp, if_false, lookupA, ih hnd.2]

theorem lookupA_eraseA_ne {α : Type} (m : List (String × α)) (k k2 : String)
    (h : k2 ≠ k) : lookupA (eraseA m k) k2 = lookupA m k2 := by
  induction m with
  | nil => rfl
  | cons p rest ih =>
    have hkk : ¬k = k2 := fun hc => h hc.symm
    by_cases hp : p.1 = k
    · have hpk : ¬p.1 = k2 := by rw [hp]; exact hkk
      simp [eraseA, hp, lookupA, hpk, hkk]
    · simp only [eraseA, hp, if_false, lookupA]
      by_cases hpk : p.1 = k2 <;> simp [hpk, ih]

theorem mem_insertA {α : Type} (m : List (String × α)) (k : String) (v : α)
    (q : String × α) (h : q ∈ insertA m k v) : q = (k, v) ∨ q ∈ m := by
  induction m with
  | nil => simp [insertA] at h; simp [h]
  | cons p rest ih =>
    by_cases hp : p.1 = k
    · simp only [insertA, hp, if_true, List.mem_cons] at h
      rcases h with h | h
      · exact Or.inl h
      · exact Or.inr (List.mem_cons_of_mem p h)
    · simp only [insertA, hp, if_false, List.mem_cons] at h
      rcases h with h | h
      · exact Or.inr (by rw [h]; exact List.mem_cons_self p rest)
      · rcases ih h with h2 | h2
        · exact Or.inl h2
        · exact Or.inr (List.mem_cons_of_mem p h2)

theorem map_fst_insertA_of_isSome {α : Type} (m : List (String × α)) (k : String) (v : α)
    (h : (lookupA m k).isSome = true) :
    (insertA m k v).map Prod.fst = m.map Prod.fst := by
  induction m with
  | nil => simp [lookupA] at h
  | cons p rest ih =>
    by_cases hp : p.1 = k
    · simp [insertA, hp]
    · simp only [lookupA, hp, if_false] at h
      simp [insertA, hp, ih h]

theorem del_none (vm : RMap) (r : Resource) (key : String)
    (hl : lookupA vm key = none) : RMap.del vm r key = vm := by
  unfold RMap.del
  rw [hl]

theorem del_some (vm : RMap) (r : Resource) (key : String) (l : List Resource)
    (hl : lookupA vm key = some l) :
    RMap.del vm r key =
      if (l.filter (fun q => q.id ≠ r.id)).isEmpty then eraseA vm key
      else insertA vm key (l.filter (fun q => q.id ≠ r.id)) := by
  unfold RMap.del
  rw [hl]

theorem nodup_del (vm : RMap) (r : Resource) (key : String)
    (hnd : (vm.map Prod.fst).Nodup) : ((RMap.del vm r key).map Prod.fst).Nodup := by
  cases hl : lookupA vm key with
  | none => rw [del_none vm r key hl]; exact hnd
  | some l =>
    rw [del_some vm r key l hl]
    by_cases he : (l.filter (fun q => q.id ≠ r.id)).isEmpty = true
    · rw [if_pos he]
      exact hnd.sublist (List.Sublist.map Prod.fst (eraseA_sublist vm key))
    · rw [if_neg he]
      rw [map_fst_insertA_of_isSome vm key _ (by simp [hl])]
      exact hnd

theorem del_self_no_id (vm : RMap) (r : Resource) (key : String)
    (hnd : (vm.map Prod.fst).Nodup) :
    ∀ x ∈ (lookupA (RMap.del vm r key) key).getD [], x.id ≠ r.id := by
  cases hl : lookupA vm key with
  | none =>
    rw [del_none vm r key hl, hl]
    simp
  | some l =>
    rw [del_some vm r key l hl]
    by_cases he : (l.filter (fun q => q.id ≠ r.id)).isEmpty = true
    · rw [if_pos he]
      rw [lookupA_eraseA_self_of_nodup vm key hnd]
      simp
    · rw [if_neg he]
      rw [lookupA_insertA_self]
      intro x hx
      simp only [Option.getD_some, List.mem_filter, decide_eq_true_eq] at hx
      exact hx.2

theorem lookupA_del_ne (vm : RMap) (r : Resource) (key v : String) (h : v ≠ key) :
    lookupA (RMap.del vm r key) v = lookupA vm v := by
  cases hl : lookupA vm key with
  | none => rw [del_none vm r key hl]
  | some l =>
    rw [del_some vm r key l hl]
    by_cases he : (l.filter (fun q => q.id ≠ r.id)).isEmpty = true
    · rw [if_pos he]
      exact lookupA_eraseA_ne vm key v h
    · rw [if_neg he]
      exact lookupA_insertA_ne vm key v _ h

/-- Bucket lookup inside a raw secondary-index map: label key, then value. -/
def bucketL (m : LabelMap) (k v : String) : Option (List Resource) :=
  match lookupA m k with
  | none => none
  | some vm => lookupA vm v

theorem bucketL_none (m : LabelMap) (k v : String) (h : lookupA m k = none) :
    bucketL m k v = none := by
  unfold bucketL
  rw [h]

theorem bucketL_some (m : LabelMap) (k v : String) (vm : RMap)
    (h : lookupA m k = some vm) : bucketL m k v = lookupA vm v := by
  unfold bucketL
  rw [h]

theorem delStep_none (res : Resource) (m : LabelMap) (kv : String × String)
    (h : lookupA m kv.1 = none) : delStep res m kv = m := by
  unfold delStep
  rw [h]

theorem delStep_some (res : Resource) (m : LabelMap) (kv : String × String) (vm : RMap)
    (h : lookupA m kv.1 = some vm) :
    delStep res m kv = insertA m kv.1 (RMap.del vm res kv.2) := by
  unfold delStep
  rw [h]

theorem bucketL_delStep_ne (res : Resource) (m : LabelMap) (kv : String × String)
    (k v : String) (h : ¬(kv.1 = k ∧ kv.2 = v)) :
    bucketL (delStep res m kv) k v = bucketL m k v := by
  cases hlk : lookupA m kv.1 with
  | none => rw [delStep_none res m kv hlk]
  | some vmx =>
    rw [delStep_some res m kv vmx hlk]
    by_cases hk : kv.1 = k
    · have hv : ¬kv.2 = v := fun hc => h ⟨hk, hc⟩
      subst hk
      rw [bucketL_some _ kv.1 v _ (lookupA_insertA_self m kv.1 (RMap.del vmx res kv.2))]
      rw [bucketL_some m kv.1 v vmx hlk]
      exact lookupA_del_ne vmx res kv.2 v (fun hc => hv hc.symm)
    · have h1 : lookupA (insertA m kv.1 (RMap.del vmx res kv.2)) k = lookupA m k :=
        lookupA_insertA_ne m kv.1 k _ (fun hc => hk hc.symm)
      unfold bucketL
      rw [h1]

theorem bucketL_foldl_delStep_not_mem (res : Resource) (kvs : List (String × String)) :
    ∀ (m : LabelMap) (k v : String), (k, v) ∉ kvs →
    bucketL (kvs.foldl (delStep res) m) k v = bucketL m k v := by
  induction kvs with
  | nil => intro m k v _; rfl
  | cons kv rest ih =>
    intro m k v hnm
    rw [List.foldl_cons]
    rw [ih (delStep res m kv) k v (fun hc => hnm (List.mem_cons_of_mem kv hc))]
    apply bucketL_delStep_ne
    rintro ⟨h1, h2⟩
    exact hnm (by rw [← h1, ← h2]; exact List.mem_cons_self kv rest)

/-- Well-formedness of a secondary-index map: every per-key value map has
pairwise-distinct value keys (Go maps cannot hold duplicates; every
reachable engine state satisfies this). -/
def WFm (m : LabelMap) : Prop := ∀ p ∈ m, (p.2.map Prod.fst).Nodup

theorem WFm_delStep (res : Resource) (m : LabelMap) (kv : String × String)
    (hw : WFm m) : WFm (delStep res m kv) := by
  cases hlk : lookupA m kv.1 with
  | none => rw [delStep_none res m kv hlk]; exact hw
  | some vmx =>
    rw [delStep_some res m kv vmx hlk]
    intro q hq
    rcases mem_insertA m kv.1 _ q hq with h | h
    · rw [h]
      exact nodup_del vmx res kv.2 (hw (kv.1, vmx) (lookupA_mem m kv.1 vmx hlk))
    · exact hw q h

theorem noId_delStep (res : Resource) (m : LabelMap) (kv : String × String)
    (k v : String) (hw : WFm m)
    (hprev : ∀ x ∈ (bucketL m k v).getD [], x.id ≠ res.id) :
    ∀ x ∈ (bucketL (delStep res m kv) k v).getD [], x.id ≠ res.id := by
  cases hlk : lookupA m kv.1 with
  | none => rw [delStep_none res m kv hlk]; exact hprev
  | some vmx =>
    rw [delStep_some res m kv vmx hlk]
    by_cases hk : kv.1 = k
    · subst hk
      rw [bucketL_some _ kv.1 v _ (lookupA_insertA_self m kv.1 (RMap.del vmx res kv.2))]
      by_cases hv : v = kv.2
      · subst hv
        exact del_self_no_id vmx res kv.2 (hw (kv.1, vmx) (lookupA_mem m kv.1 vmx hlk))
      · rw [lookupA_del_ne vmx res kv.2 v hv]
        rw [bucketL_some m kv.1 v vmx hlk] at hprev
        exact hprev
    · have h1 : lookupA (insertA m kv.1 (RMap.del vmx res kv.2)) k = lookupA m k :=
        lookupA_insertA_ne m kv.1 k _ (fun hc => hk hc.symm)
      have h2 : bucketL (insertA m kv.1 (RMap.del vmx res kv.2)) k v = bucketL m k v := by
        unfold bucketL
        rw [h1]
      rw [h2]
      exact hprev

theorem noId_foldl (res : Resource) (kvs : List (String × String)) :
    ∀ (m : LabelMap) (k v : String), WFm m →
    (∀ x ∈ (bucketL m k v).getD [], x.id ≠ res.id) →
    ∀ x ∈ (bucketL (kvs.foldl (delStep res) m) k v).getD [], x.id ≠ res.id := by
  induction kvs with
  | nil => intro m k v _ hprev; exact hprev
  | cons kv rest ih =>
    intro m k v hw hprev
    rw [List.foldl_cons]
    exact ih (delStep res m kv) k v (WFm_delStep res m kv hw)
      (noId_delStep res m kv k v hw hprev)

theorem noId_delStep_self (res : Resource) (m : LabelMap) (kv : String × String)
    (hw : WFm m) :
    ∀ x ∈ (bucketL (delStep res m kv) kv.1 kv.2).getD [], x.id ≠ res.id := by
  cases hlk : lookupA m kv.1 with
  | none =>
    rw [delStep_none res m kv hlk, bucketL_none m kv.1 kv.2 hlk]
    simp
  | some vmx =>
    rw [delStep_some res m kv vmx hlk]
    rw [bucketL_some _ kv.1 kv.2 _ (lookupA_insertA_self m kv.1 (RMap.del vmx res kv.2))]
    exact del_self_no_id vmx res kv.2 (hw (kv.1, vmx) (lookupA_mem m kv.1 vmx hlk))

theorem noId_foldl_mem (res : Resource) (kvs : List (String × String)) :
    ∀ (m : LabelMap) (kv : String × String), WFm m → kv ∈ kvs →
    ∀ x ∈ (bucketL (kvs.foldl (delStep res) m) kv.1 kv.2).getD [], x.id ≠ res.id := by
  induction kvs with
  | nil => intro m kv _ h; simp at h
  | cons kv0 rest ih =>
    intro m kv hw hmem
    rw [List.foldl_cons]
    rcases List.mem_cons.mp hmem with h | h
    · subst h
      exact noId_foldl res rest (delStep res m kv) kv.1 kv.2 (WFm_delStep res m kv hw)
        (noId_delStep_self res m kv hw)
    · exact ih (delStep res m kv0) kv (WFm_delStep res m kv0 hw) h

/-- C10: when the identifier of `r` is present, `Delete(r)` iterates only
the ARGUMENT's own label map: every secondary-index bucket whose (key,value)
pair is not among `r`'s labels is left exactly unchanged (so buckets the
stored resource deposited under labels `r` does not carry keep their stale
entries), while for each (key,value) pair that `r` does carry, no resource
with `r`'s identifier remains in that bucket. -/
theorem delete_only_argument_labels (ls : LabelStore) (r : Resource)
    (hv : r.valid = true) (hf : (ls.find r.id).isSome = true)
    (hwf : ∀ m, ls.resources = some m → ∀ p ∈ m, (p.2.map Prod.fst).Nodup) :
    (∀ k v, (k, v) ∉ r.labels →
      bucketLookup ((ls.Delete r).store) k v = bucketLookup ls k v) ∧
    (∀ kv ∈ r.labels,
      ∀ x ∈ (bucketLookup ((ls.Delete r).store) kv.1 kv.2).getD [], x.id ≠ r.id) := by
  have hnn : (ls.find r.id).isNone = false := by
    cases hfr : ls.find r.id with
    | none => rw [hfr] at hf; simp at hf
    | some w => rfl
  cases hres : ls.resources with
  | none =>
    have hstore : (ls.Delete r).store = ls := by
      unfold LabelStore.Delete LabelStore.deleteLocked
      simp [hv, hnn, hres]
    constructor
    · intro k v _
      rw [hstore]
    · intro kv _ x hx
      rw [hstore] at hx
      unfold bucketLookup at hx
      rw [hres] at hx
      simp at hx
  | some rm =>
    have hstore : (ls.Delete r).store = ⟨ls.uuids, some (r.labels.foldl (delStep r) rm)⟩ := by
      unfold LabelStore.Delete LabelStore.deleteLocked
      simp [hv, hnn, hres]
    have hb : ∀ k v, bucketLookup ((ls.Delete r).store) k v =
        bucketL (r.labels.foldl (delStep r) rm) k v := by
      intro k v
      rw [hstore]
      rfl
    have hb0 : ∀ k v, bucketLookup ls k v = bucketL rm k v := by
      intro k v
      unfold bucketLookup bucketL
      rw [hres]
    have hwfm : WFm rm := hwf rm hres
    constructor
    · intro k v hnm
      rw [hb k v, hb0 k v]
      exact bucketL_foldl_delStep_not_mem r r.labels rm k v hnm
    · intro kv hkv x hx
      rw [hb kv.1 kv.2] at hx
      exact noId_foldl_mem r r.labels rm kv hwfm hkv x hx

theorem delete_only_argument_labels_witness :
    (aRes.valid = true ∧ (stA.find aRes.id).isSome = true ∧
     (∀ m, stA.resources = some m → ∀ p ∈ m, (p.2.map Prod.fst).Nodup)) ∧
    ((∀ k v, (k, v) ∉ aRes.labels →
        bucketLookup ((stA.Delete aRes).store) k v = bucketLookup stA k v) ∧
     (∀ kv ∈ aRes.labels,
        ∀ x ∈ (bucketLookup ((stA.Delete aRes).store) kv.1 kv.2).getD [], x.id ≠ aRes.id)) :=
  ⟨⟨by decide, by decide, by
      intro m hm
      have hx : some [("rack", [("7", [aRes])])] = some m := hm
      injection hx with hx2
      rw [← hx2]
      decide⟩,
   delete_only_argument_labels stA aRes (by decide) (by decide) (by
      intro m hm
      have hx : some [("rack", [("7", [aRes])])] = some m := hm
      injection hx with hx2
      rw [← hx2]
      decide)⟩
